import Mathlib

/-!
Verification development for the momentum-sniper trading bot.

This file gives a shallow embedding, in Lean 4, of the components of the
bot that the specification's testable properties talk about:

* `src/scanner/pumpCurve.js` — bonding-curve progress computation;
* `src/scanner/validationQueue.js` — the validation pipeline, momentum
  scoring, tier assignment and the queue's dedupe discipline;
* `src/execution/positionManager.js` — position opening guards and the
  tiered exit evaluation;
* `src/state/stateManager.js` — WAL entry application, WAL replay and
  snapshot retention.

JavaScript numbers that only ever hold exact decimal quantities are
modelled as rationals (`ℚ`); unsigned 64-bit on-chain quantities that the
code handles as BigInt are modelled as `ℕ`; JS `Map`s keyed by mint are
modelled as functions `String → Option _`; JS objects used as record
payloads are modelled as functions `String → Option String`.
-/

namespace MomentumSniper

/-! ### Bonding-curve progress (src/scanner/pumpCurve.js) -/

/-- JS `Math.round`: round half toward positive infinity. -/
def jsRound (q : ℚ) : ℤ := ⌊q + 1/2⌋

/-- Embedding of `computeProgressPct({realToken, supply})`:
`sold = supply > realToken ? supply - realToken : 0`, then
`pct = Number((sold * 10000n) / sup) / 100`, clamped to `[0, 100]`.
The BigInt division is `ℕ` division; the final division by 100 is exact
on the rationals (the JS float rounding there is value-preserving for
all claimed order and bound properties). -/
def computeProgressPct (realToken supply : ℕ) : ℚ :=
  if supply = 0 then 0
  else
    let sold : ℕ := if realToken < supply then supply - realToken else 0
    let pct : ℚ := ((sold * 10000) / supply : ℕ) / 100
    max 0 (min 100 pct)

/-! ### Configuration (config.example.js) -/

/-- `config.momentum.weights`. -/
structure MomentumWeights where
  volume : ℚ
  holders : ℚ
  curve : ℚ

/-- One tier threshold entry of `config.momentum.tiers`. -/
structure TierCfg where
  minScore : ℚ
  sizeMultiplier : ℚ

/-- `config.momentum.tiers`. -/
structure MomentumTiers where
  WARM : TierCfg
  HOT : TierCfg
  VERY_HOT : TierCfg
  EXTREME : TierCfg

/-- `config.momentum`. -/
structure MomentumCfg where
  weights : MomentumWeights
  minScore : ℚ
  tiers : MomentumTiers

/-- The fields of `config.scanner` the validation pipeline reads. -/
structure ScannerCfg where
  minCurveProgress : ℚ
  maxCurveProgress : ℚ
  minHolders : ℚ
  minVolume5mSol : ℚ
  minInitialBuySol : ℚ

/-- Default `config.example.js` momentum section. -/
def defaultMomentum : MomentumCfg :=
  ⟨⟨2/5, 1/5, 2/5⟩, 40, ⟨⟨20, 1/4⟩, ⟨40, 1/2⟩, ⟨60, 3/4⟩, ⟨80, 1⟩⟩⟩

/-- Default `config.example.js` scanner section (the fields used here). -/
def defaultScanner : ScannerCfg :=
  ⟨0, 99, 15, 1/2, 1/10⟩

/-! ### Validation pipeline (src/scanner/validationQueue.js) -/

/-- Momentum tier names. -/
inductive Tier where
  | COLD | WARM | HOT | VERY_HOT | EXTREME
deriving DecidableEq, Repr

/-- Named rejection reasons produced by `_runValidationPipeline` and its
validators (the generic `e.message` catch reasons are not reachable in
this pure embedding). -/
inductive Reason where
  | CURVE_NOT_FOUND
  | CURVE_GRADUATED
  | CURVE_BELOW_MIN
  | NOT_ON_CURVE
  | TOKEN_TOO_MATURE
  | LOW_LIQUIDITY
  | TOO_MATURE
  | WEAK_EARLY_MOMENTUM
  | INSUFFICIENT_HOLDERS
  | INSUFFICIENT_VOLUME
  | SMALL_INITIAL_BUY
  | MOMENTUM_BELOW_THRESHOLD
deriving DecidableEq, Repr

/-- The terminal outcome of one validation job. -/
inductive PipelineResult where
  | enter (momentumScore : ℚ) (tier : Tier)
  | pass (rejectionReason : Reason)
deriving DecidableEq, Repr

/-- The curve fields the pipeline reads (`realToken`, `realSol` are the
decoded u64 reserves, as BigInt-backed decimal strings in the source). -/
structure CurveData where
  realToken : ℕ
  realSol : ℕ
deriving DecidableEq, Repr

/-- Outcome of `_fetchMintInfo`: either the 82-byte SPL mint record was
found (`known supply`), or the account is absent/undecodable and the
token is treated as freshly minted (`newMint`). A `none` at the use site
models the catch branch returning `null`. -/
inductive MintFetchResult where
  | newMint
  | known (supply : ℕ)
deriving DecidableEq, Repr

/-- Embedding of `_getTier(score)`. -/
def getTier (m : MomentumCfg) (score : ℚ) : Tier :=
  if m.tiers.EXTREME.minScore ≤ score then .EXTREME
  else if m.tiers.VERY_HOT.minScore ≤ score then .VERY_HOT
  else if m.tiers.HOT.minScore ≤ score then .HOT
  else if m.tiers.WARM.minScore ≤ score then .WARM
  else .COLD

/-- Embedding of `_calculateMomentumScore(validation, progress)`:
three sub-scores clamped to 100, a weighted sum, and `Math.round`. -/
def calculateMomentumScore (m : MomentumCfg)
    (estimatedVolumeSol estimatedHolders progress : ℚ) : ℚ :=
  let volumeScore := min (estimatedVolumeSol / 2 * 100) 100
  let holderScore := min (estimatedHolders / 50 * 100) 100
  let curveScore := progress * (8/10)
  let score := volumeScore * m.weights.volume + holderScore * m.weights.holders
    + curveScore * m.weights.curve
  (jsRound score : ℚ)

/-- Result of `_deepValidate`. -/
inductive DeepValidation where
  | ok (estimatedHolders estimatedVolumeSol liquiditySol : ℚ)
  | fail (reason : Reason)
deriving DecidableEq, Repr

/-- Embedding of `_deepValidate(mint, mintInfo, curveData, progress)`.
`estVolume` stands for the pseudo-random `_estimateVolume` result and
`initialBuy` for `_getInitialBuy` (both are stand-ins in the source).
`soldTokens` is a BigInt difference and may be negative, hence `ℤ`. -/
def deepValidate (scanner : ScannerCfg) (supply : ℕ) (curveData : CurveData)
    (estVolume initialBuy : ℚ) : DeepValidation :=
  let soldTokens : ℤ := (supply : ℤ) - (curveData.realToken : ℤ)
  let estimatedHolders : ℚ := (soldTokens : ℚ) / 1000000
  if estimatedHolders < scanner.minHolders then .fail .INSUFFICIENT_HOLDERS
  else if estVolume < scanner.minVolume5mSol then .fail .INSUFFICIENT_VOLUME
  else
    let liquiditySol : ℚ := (curveData.realSol : ℚ) / 1000000000
    if liquiditySol < 1/2 then .fail .LOW_LIQUIDITY
    else if initialBuy ≠ 0 ∧ initialBuy < scanner.minInitialBuySol then
      .fail .SMALL_INITIAL_BUY
    else .ok estimatedHolders estVolume liquiditySol

/-- Result of `_basicValidate` for freshly minted tokens. -/
inductive BasicValidation where
  | ok (liquiditySol progress : ℚ)
  | fail (reason : Reason)
deriving DecidableEq, Repr

/-- Embedding of `_basicValidate(mint, curveData, progress)`. -/
def basicValidate (curveData : CurveData) (progress : ℚ) : BasicValidation :=
  let liquiditySol : ℚ := (curveData.realSol : ℚ) / 1000000000
  if liquiditySol < 15/100 then .fail .LOW_LIQUIDITY
  else if 75 < progress then .fail .TOO_MATURE
  else .ok liquiditySol progress

/-- Embedding of `_calculateEarlyScore(validation, progress)`. -/
def calculateEarlyScore (liquiditySol progress : ℚ) : ℚ :=
  let base : ℚ := 60
  let withProgress :=
    if 2 ≤ progress ∧ progress ≤ 70 then base + 25
    else if 0 ≤ progress ∧ progress ≤ 75 then base + 15
    else base
  let withLiquidity :=
    if 1/2 ≤ liquiditySol then withProgress + 20
    else if 3/10 ≤ liquiditySol then withProgress + 15
    else if 15/100 ≤ liquiditySol then withProgress + 10
    else withProgress
  min withLiquidity 100

/-- The supply the pipeline uses:
`mintInfo?.supply || curveData.realToken || '1000000000'`. Both `supply`
and `realToken` are decimal strings in the source, and the string `'0'`
is truthy in JS, so the chain resolves to the mint supply when the mint
record was decoded and to `curveData.realToken` otherwise. -/
def pipelineSupply (mintInfo : Option MintFetchResult) (curveData : CurveData) : ℕ :=
  match mintInfo with
  | some (.known s) => s
  | _ => curveData.realToken

/-- Embedding of `_runValidationPipeline(mint)`, with the two remote
fetches (`_fetchCurveData`, `_fetchMintInfo`) given as inputs and the
pseudo-random estimates (`_estimateVolume`, `_getInitialBuy`) as
parameters. -/
def runValidationPipeline (scanner : ScannerCfg) (momentum : MomentumCfg)
    (curve : Option CurveData) (mintInfo : Option MintFetchResult)
    (estVolume initialBuy : ℚ) : PipelineResult :=
  match curve with
  | none => .pass .CURVE_NOT_FOUND
  | some curveData =>
    let isNew : Bool := mintInfo = some .newMint
    let supply := pipelineSupply mintInfo curveData
    let progress := computeProgressPct curveData.realToken supply
    if scanner.maxCurveProgress ≤ progress then .pass .CURVE_GRADUATED
    else if progress < scanner.minCurveProgress then .pass .CURVE_BELOW_MIN
    else if 100 ≤ progress then .pass .NOT_ON_CURVE
    else if isNew then
      if 70 < progress then .pass .TOKEN_TOO_MATURE
      else
        match basicValidate curveData progress with
        | .fail r => .pass r
        | .ok liquiditySol _ =>
          let earlyScore := calculateEarlyScore liquiditySol progress
          if earlyScore < momentum.minScore then .pass .WEAK_EARLY_MOMENTUM
          else
            let tier : Tier :=
              if 80 ≤ earlyScore then .EXTREME
              else if 70 ≤ earlyScore then .VERY_HOT
              else if momentum.minScore ≤ earlyScore then .HOT
              else .WARM
            .enter earlyScore tier
    else
      match deepValidate scanner supply curveData estVolume initialBuy with
      | .fail r => .pass r
      | .ok estimatedHolders estimatedVolumeSol _ =>
        let momentumScore :=
          calculateMomentumScore momentum estimatedVolumeSol estimatedHolders progress
        let tier := getTier momentum momentumScore
        if momentumScore < momentum.minScore then .pass .MOMENTUM_BELOW_THRESHOLD
        else .enter momentumScore tier

/-! ### Properties of the progress computation and the pipeline -/

theorem computeProgressPct_nonneg (realToken supply : ℕ) :
    0 ≤ computeProgressPct realToken supply := by
  unfold computeProgressPct
  split
  · exact le_refl 0
  · exact le_max_left 0 _

theorem computeProgressPct_le_100 (realToken supply : ℕ) :
    computeProgressPct realToken supply ≤ 100 := by
  unfold computeProgressPct
  split
  · norm_num
  · exact max_le (by norm_num) (min_le_left 100 _)

theorem computeProgressPct_self (supply : ℕ) :
    computeProgressPct supply supply = 0 := by
  unfold computeProgressPct
  split
  · rfl
  · simp

/-- Claim C8: `computeProgress` is bounded to `[0, 100]`, returns 0 when
the supply equals the real base reserve, and is monotonically
non-decreasing as the real base reserve decreases with the supply held
fixed, for every nonzero unsigned 64-bit supply. -/
theorem computeProgressPct_bounds_zero_monotone
    (realToken realToken' supply : ℕ)
    (hsupply : supply ≠ 0) (hsupply64 : supply < 2 ^ 64)
    (hrt64 : realToken < 2 ^ 64) (hdec : realToken' ≤ realToken) :
    (0 ≤ computeProgressPct realToken supply
      ∧ computeProgressPct realToken supply ≤ 100)
    ∧ computeProgressPct supply supply = 0
    ∧ computeProgressPct realToken supply ≤ computeProgressPct realToken' supply := by
  refine ⟨⟨computeProgressPct_nonneg _ _, computeProgressPct_le_100 _ _⟩,
    computeProgressPct_self _, ?_⟩
  unfold computeProgressPct
  rw [if_neg hsupply, if_neg hsupply]
  have hsold : (if realToken < supply then supply - realToken else 0)
      ≤ (if realToken' < supply then supply - realToken' else 0) := by
    split
    · rw [if_pos (lt_of_le_of_lt hdec (by assumption))]
      exact Nat.sub_le_sub_left hdec supply
    · exact Nat.zero_le _
  have hdiv : ((if realToken < supply then supply - realToken else 0) * 10000) / supply
      ≤ ((if realToken' < supply then supply - realToken' else 0) * 10000) / supply :=
    Nat.div_le_div_right (Nat.mul_le_mul_right 10000 hsold)
  have hq : (((if realToken < supply then supply - realToken else 0) * 10000 / supply : ℕ) : ℚ) / 100
      ≤ (((if realToken' < supply then supply - realToken' else 0) * 10000 / supply : ℕ) : ℚ) / 100 := by
    gcongr
  exact max_le_max (le_refl 0) (min_le_min (le_refl 100) hq)

/-- Witness for C8 at a concrete input. -/
theorem computeProgressPct_bounds_zero_monotone_witness :
    (0 ≤ computeProgressPct 3 5 ∧ computeProgressPct 3 5 ≤ 100)
    ∧ computeProgressPct 5 5 = 0
    ∧ computeProgressPct 3 5 ≤ computeProgressPct 2 5 :=
  computeProgressPct_bounds_zero_monotone 3 2 5 (by decide)
    (by norm_num) (by norm_num) (by decide)

/-- Claim C7: an established candidate with curve progress 40% (supply
50e6 base units, real base reserve 30e6, so 20 estimated holders),
liquidity 0.6 SOL (600000000 lamports) and estimated volume 1.0 SOL,
under the default momentum config, yields decision ENTER with tier HOT
(the weighted score is round(40.8) = 41 ≥ minScore 40). The pseudo-random
initial-buy estimate lies in [0.1, 0.6] in the source, so the
small-initial-buy check never rejects. -/
theorem pipeline_established_enter_hot (initialBuy : ℚ)
    (hbuy : 1/10 ≤ initialBuy) :
    runValidationPipeline defaultScanner defaultMomentum
      (some ⟨30000000, 600000000⟩) (some (.known 50000000)) 1 initialBuy
      = .enter 41 .HOT := by
  have hnot : ¬ initialBuy < (1:ℚ)/10 := not_lt.mpr hbuy
  have hdeep : deepValidate defaultScanner 50000000 ⟨30000000, 600000000⟩ 1 initialBuy
      = .ok 20 1 (3/5) := by
    unfold deepValidate
    norm_num [defaultScanner, hnot]
  unfold runValidationPipeline pipelineSupply
  simp only [hdeep]
  norm_num [computeProgressPct, basicValidate, calculateEarlyScore,
    calculateMomentumScore, getTier, jsRound, defaultScanner, defaultMomentum,
    min_def, max_def]
  exact fun h => MintFetchResult.noConfusion h

/-- Witness for C7 with the initial-buy estimate at 0.3. -/
theorem pipeline_established_enter_hot_witness :
    runValidationPipeline defaultScanner defaultMomentum
      (some ⟨30000000, 600000000⟩) (some (.known 50000000)) 1 (3/10)
      = .enter 41 .HOT :=
  pipeline_established_enter_hot (3/10) (by norm_num)

theorem calculateEarlyScore_bounds (liq prog : ℚ) (hl : 15/100 ≤ liq)
    (h0 : 0 ≤ prog) (h75 : prog ≤ 75) :
    85 ≤ calculateEarlyScore liq prog ∧ calculateEarlyScore liq prog ≤ 100 := by
  have hband : 0 ≤ prog ∧ prog ≤ 75 := ⟨h0, h75⟩
  unfold calculateEarlyScore
  rw [min_def]
  split_ifs <;> constructor <;> linarith

/-- Claim C10: on the fresh-mint path, every candidate that survives the
basic checks gets an early score in `[85, 100]`, so the
`WEAK_EARLY_MOMENTUM` rejection (minScore 40) is unreachable and the
assigned tier is always EXTREME. -/
theorem pipeline_new_path_score_extreme (cd : CurveData) (estVolume initialBuy : ℚ) :
    runValidationPipeline defaultScanner defaultMomentum
        (some cd) (some .newMint) estVolume initialBuy
      ≠ .pass .WEAK_EARLY_MOMENTUM
    ∧ ∀ s t, runValidationPipeline defaultScanner defaultMomentum
        (some cd) (some .newMint) estVolume initialBuy = .enter s t →
        (85 ≤ s ∧ s ≤ 100) ∧ t = .EXTREME := by
  have hprog : computeProgressPct cd.realToken cd.realToken = 0 :=
    computeProgressPct_self _
  unfold runValidationPipeline pipelineSupply
  simp only [hprog]
  norm_num [defaultScanner, defaultMomentum]
  by_cases hliq : (cd.realSol : ℚ) / 1000000000 < 15/100
  · have hbv : basicValidate cd 0 = .fail .LOW_LIQUIDITY := by
      simp only [basicValidate]
      rw [if_pos hliq]
    simp only [hbv]
    refine ⟨by simp, ?_⟩
    intro s t h
    exact absurd h (by simp)
  · have hbv : basicValidate cd 0 = .ok ((cd.realSol : ℚ) / 1000000000) 0 := by
      simp only [basicValidate]
      rw [if_neg hliq, if_neg (show ¬ (75:ℚ) < 0 by norm_num)]
    have hl : 15/100 ≤ (cd.realSol : ℚ) / 1000000000 := not_lt.mp hliq
    have hb := calculateEarlyScore_bounds ((cd.realSol : ℚ) / 1000000000) 0 hl
      (le_refl 0) (by norm_num)
    simp only [hbv]
    rw [if_neg (by linarith [hb.1])]
    rw [if_pos (by linarith [hb.1])]
    refine ⟨by simp, ?_⟩
    intro s t h
    injection h with hs ht
    subst hs; subst ht
    exact ⟨⟨hb.1, hb.2⟩, rfl⟩

/-! ### Position manager (src/execution/positionManager.js) -/

/-- Position lifecycle states. -/
inductive PosState where
  | inPosition | tier1Done | closedPos | stoppedPos
deriving DecidableEq, Repr

/-- `dumpRisk` flag returned by `_checkFeeBalance`. -/
inductive DumpRisk where
  | low | high
deriving DecidableEq, Repr

/-- Which exit rule (if any) one `_evaluatePosition` tick fires. -/
inductive ExitAction where
  | tier1Exit | tier2Exit | stopLossExit | timeDecayExit | feeSpikeExit | noExit
deriving DecidableEq, Repr

/-- `config.exit.tier1`. -/
structure Tier1Cfg where
  enabled : Bool
  minPct : ℚ
  maxPct : ℚ
  exitPct : ℚ

/-- `config.exit.tier2`. -/
structure Tier2Cfg where
  enabled : Bool
  minPct : ℚ
  exitPct : ℚ

/-- `config.exit.stopLoss`. -/
structure StopLossCfg where
  enabled : Bool
  pct : ℚ

/-- `config.exit.timeDecay`. -/
structure TimeDecayCfg where
  enabled : Bool
  maxSlots : ℤ
  requireProfit : Bool

/-- The `config.exit` object plus the `exit.feeSpikeExit` flag that
`_evaluatePosition` reads. `config.example.js` defines `feeSpikeExit`
only under `feeMonitoring`, so `exit.feeSpikeExit` is `undefined`
(falsy) under the default config. -/
structure ExitCfg where
  tier1 : Tier1Cfg
  tier2 : Tier2Cfg
  stopLoss : StopLossCfg
  timeDecay : TimeDecayCfg
  feeSpikeExit : Bool

/-- Default `config.example.js` exit section. -/
def defaultExitCfg : ExitCfg :=
  ⟨⟨true, 50, 100, 50⟩, ⟨true, 100, 100⟩, ⟨true, -15⟩, ⟨true, 300, true⟩, false⟩

/-- Embedding of the rule cascade of `_evaluatePosition(mint, position)`
once `currentPrice` and `pnlPct` are computed. `tier1Done`/`tier2Done`
are the position's `tier1Exited`/`tier2Exited` flags, `recentChange` the
pseudo-random `_checkParabolicMove` sample, `slotsHeld` the slot delta of
the time-decay rule, and `dumpRisk` the `_checkFeeBalance` flag. Each
branch `return`s in the source, so the first condition that holds wins. -/
def evaluatePosition (cfg : ExitCfg) (state : PosState)
    (tier1Done tier2Done : Bool) (pnlPct recentChange : ℚ)
    (slotsHeld : ℤ) (dumpRisk : DumpRisk) : ExitAction :=
  if cfg.tier1.enabled = true ∧ tier1Done = false ∧ state = .inPosition
      ∧ cfg.tier1.minPct ≤ pnlPct ∧ pnlPct ≤ cfg.tier1.maxPct then .tier1Exit
  else if cfg.tier2.enabled = true ∧ tier2Done = false
      ∧ cfg.tier2.minPct ≤ pnlPct ∧ 20 < recentChange then .tier2Exit
  else if cfg.stopLoss.enabled = true ∧ pnlPct ≤ cfg.stopLoss.pct then .stopLossExit
  else if cfg.timeDecay.enabled = true ∧ cfg.timeDecay.maxSlots < slotsHeld
      ∧ (cfg.timeDecay.requireProfit = false ∨ 0 < pnlPct) then .timeDecayExit
  else if dumpRisk = .high ∧ cfg.feeSpikeExit = true then .feeSpikeExit
  else .noExit

/-- Exit reasons passed to `_executeFullExit`. -/
inductive ExitReason where
  | TIER_1_PROFIT | TIER_2_PROFIT | STOP_LOSS | TIME_DECAY | FEE_SPIKE
deriving DecidableEq, Repr

/-- `_executeFullExit` sets
`position.state = reason === 'STOP_LOSS' ? 'STOPPED' : 'CLOSED'`. -/
def stateAfterFullExit (reason : ExitReason) : PosState :=
  if reason = .STOP_LOSS then .stoppedPos else .closedPos

/-- The fields of `config.trading` read by `openPosition`. -/
structure TradingCfg where
  maxPositions : ℕ
  dailyLossLimitPct : ℚ

/-- Default `config.example.js` trading section (the fields used here). -/
def defaultTrading : TradingCfg := ⟨3, 15⟩

/-- Events `openPosition` can emit. -/
inductive PmEvent where
  | circuitBreaker | openedEvent
deriving DecidableEq, Repr

/-- The PositionManager state `openPosition` reads: the keys of the
`positions` map and `dailyStats.totalPnL`. -/
structure PmState where
  positions : List String
  totalPnL : ℚ
deriving DecidableEq, Repr

/-- Embedding of `_isDailyLossLimitHit(limitPct)`:
`lossPct = (Math.abs(totalPnL) / 100) * 100`. -/
def isDailyLossLimitHit (totalPnL limitPct : ℚ) : Bool :=
  if 0 ≤ totalPnL then false
  else decide (limitPct ≤ |totalPnL| / 100 * 100)

/-- What one `openPosition` call produces: the resulting position keys,
whether a position object was created (non-null return), and the events
emitted during the call. -/
structure OpenResult where
  positions : List String
  created : Bool
  events : List PmEvent
deriving DecidableEq, Repr

/-- Embedding of `openPosition({mint, ...})`: reject at the position cap
(log only, `null` return), reject when the daily-loss breaker has
tripped (emit `circuitBreaker`, `null` return), otherwise insert the
position and emit `opened`. -/
def openPosition (cfg : TradingCfg) (s : PmState) (mint : String) : OpenResult :=
  if cfg.maxPositions ≤ s.positions.length then ⟨s.positions, false, []⟩
  else if isDailyLossLimitHit s.totalPnL cfg.dailyLossLimitPct then
    ⟨s.positions, false, [.circuitBreaker]⟩
  else ⟨s.positions ++ [mint], true, [.openedEvent]⟩

/-! ### Exit precedence and stop-loss properties -/

/-- Claim C3 as stated is false: a non-terminal position in state
TIER_1_EXITED with `pnlPct = 75` does not fire the tier-1 partial exit
(the tier-1 rule requires state IN_POSITION with `tier1Exited` unset);
under the default config its evaluation fires nothing at all. -/
theorem tier1Exited_at_75_fires_nothing :
    evaluatePosition defaultExitCfg .tier1Done true false 75 0 0 .low
      ≠ .tier1Exit
    ∧ evaluatePosition defaultExitCfg .tier1Done true false 75 0 0 .low
      = .noExit := by
  constructor
  · intro h
    rw [show evaluatePosition defaultExitCfg .tier1Done true false 75 0 0 .low
        = .noExit from by norm_num [evaluatePosition, defaultExitCfg]] at h
    exact ExitAction.noConfusion h
  · norm_num [evaluatePosition, defaultExitCfg]

/-- Claim C3, amended: with the default exit config, a position in state
IN_POSITION whose tier-1 exit has not been taken and whose `pnlPct` is
75 fires the tier-1 partial exit regardless of every other rule's
condition; and no non-terminal position with `pnlPct = 75` ever fires
the stop-loss. -/
theorem evaluatePosition_at_75_ne_stoploss (st : PosState) (t1 t2 : Bool)
    (rc : ℚ) (sh : ℤ) (dr : DumpRisk) :
    evaluatePosition defaultExitCfg st t1 t2 75 rc sh dr ≠ .stopLossExit := by
  intro h
  unfold evaluatePosition at h
  split_ifs at h with hA hB hC hD hE <;> try exact ExitAction.noConfusion h
  exact absurd hC.2 (by norm_num [defaultExitCfg])

theorem exit_precedence_tier1_before_stoploss :
    (∀ (t2 : Bool) (rc : ℚ) (sh : ℤ) (dr : DumpRisk),
      evaluatePosition defaultExitCfg .inPosition false t2 75 rc sh dr
        = .tier1Exit)
    ∧ (∀ (t1 t2 : Bool) (rc : ℚ) (sh : ℤ) (dr : DumpRisk),
      evaluatePosition defaultExitCfg .inPosition t1 t2 75 rc sh dr
        ≠ .stopLossExit)
    ∧ (∀ (t1 t2 : Bool) (rc : ℚ) (sh : ℤ) (dr : DumpRisk),
      evaluatePosition defaultExitCfg .tier1Done t1 t2 75 rc sh dr
        ≠ .stopLossExit) := by
  exact ⟨fun t2 rc sh dr => by norm_num [evaluatePosition, defaultExitCfg],
    fun t1 t2 rc sh dr => evaluatePosition_at_75_ne_stoploss _ t1 t2 rc sh dr,
    fun t1 t2 rc sh dr => evaluatePosition_at_75_ne_stoploss _ t1 t2 rc sh dr⟩

/-- Claim C4: with default config, an IN_POSITION evaluation returns the
stop-loss full exit exactly when `pnlPct ≤ -15`, whatever the other rule
inputs are; the boundary `pnlPct = -15` fires it, `pnlPct = -14.999`
does not; and a STOP_LOSS full exit puts the position in state STOPPED. -/
theorem stoploss_iff_pnl_le_neg15 :
    (∀ (t1 t2 : Bool) (pnl rc : ℚ) (sh : ℤ) (dr : DumpRisk),
      evaluatePosition defaultExitCfg .inPosition t1 t2 pnl rc sh dr
          = .stopLossExit ↔ pnl ≤ -15)
    ∧ (∀ (t1 t2 : Bool) (rc : ℚ) (sh : ℤ) (dr : DumpRisk),
      evaluatePosition defaultExitCfg .inPosition t1 t2 (-15) rc sh dr
        = .stopLossExit)
    ∧ (∀ (t1 t2 : Bool) (rc : ℚ) (sh : ℤ) (dr : DumpRisk),
      evaluatePosition defaultExitCfg .inPosition t1 t2 (-14999/1000) rc sh dr
        ≠ .stopLossExit)
    ∧ stateAfterFullExit .STOP_LOSS = .stoppedPos := by
  have hiff : ∀ (t1 t2 : Bool) (pnl rc : ℚ) (sh : ℤ) (dr : DumpRisk),
      evaluatePosition defaultExitCfg .inPosition t1 t2 pnl rc sh dr
        = .stopLossExit ↔ pnl ≤ -15 := by
    intro t1 t2 pnl rc sh dr
    constructor
    · intro h
      unfold evaluatePosition at h
      split_ifs at h with h1 h2 h3
      have := h3.2
      rw [show defaultExitCfg.stopLoss.pct = -15 from rfl] at this
      exact this
    · intro h
      unfold evaluatePosition
      rw [if_neg (fun hc => by
        have := hc.2.2.2.1
        rw [show defaultExitCfg.tier1.minPct = 50 from rfl] at this
        linarith)]
      rw [if_neg (fun hc => by
        have := hc.2.2.1
        rw [show defaultExitCfg.tier2.minPct = 100 from rfl] at this
        linarith)]
      rw [if_pos ⟨rfl, by rw [show defaultExitCfg.stopLoss.pct = -15 from rfl]; exact h⟩]
  refine ⟨hiff, fun t1 t2 rc sh dr => (hiff t1 t2 (-15) rc sh dr).mpr (by norm_num),
    fun t1 t2 rc sh dr h => ?_, rfl⟩
  have := (hiff t1 t2 (-14999/1000) rc sh dr).mp h
  linarith

/-! ### Opening guards (C9) -/

/-- Claim C9 as stated is false: at the position cap, `openPosition`
returns null after only a `console.log` — the position set is unchanged
but no event at all is raised (only the daily-loss rejection emits
`circuitBreaker`). Concretely, with 3 open positions and the default cap
of 3, the call changes nothing and emits no event. -/
theorem openPosition_at_cap_emits_no_event :
    openPosition defaultTrading ⟨["m1", "m2", "m3"], 0⟩ "m4"
      = ⟨["m1", "m2", "m3"], false, []⟩ := rfl

/-- Claim C9, amended: both rejection branches of `openPosition` leave
the position set unchanged and create no position; the daily-loss
circuit-breaker rejection raises a `circuitBreaker` event, while the
position-cap rejection raises no event. -/
theorem openPosition_rejections (cfg : TradingCfg) (s : PmState) (mint : String) :
    (cfg.maxPositions ≤ s.positions.length →
      openPosition cfg s mint = ⟨s.positions, false, []⟩)
    ∧ (s.positions.length < cfg.maxPositions →
      isDailyLossLimitHit s.totalPnL cfg.dailyLossLimitPct = true →
      openPosition cfg s mint = ⟨s.positions, false, [.circuitBreaker]⟩) := by
  constructor
  · intro h
    unfold openPosition
    rw [if_pos h]
  · intro h hb
    unfold openPosition
    rw [if_neg (not_le.mpr h), if_pos hb]

/-! ### State manager: WAL entries and replay (src/state/stateManager.js) -/

/-- A JS record payload: finitely many string keys to string values,
modelled extensionally. -/
def Payload : Type := String → Option String

/-- `Object.assign(pos, updates)`: keys present in `updates` win. -/
def assignPayload (pos updates : Payload) : Payload :=
  fun k => match updates k with
  | some v => some v
  | none => pos k

/-- The in-memory state the WAL mutates: `state.scanner.seenMints` and
`state.positions`, both JS `Map`s keyed by mint. -/
structure WalState where
  seenMints : String → Option Payload
  positions : String → Option Payload

/-- WAL entry types (`_walAppend` callers). -/
inductive WalEntry where
  | mintSeen (mint : String) (data : Payload)
  | positionOpened (mint : String) (position : Payload)
  | positionUpdated (mint : String) (updates : Payload)
  | positionClosed (mint : String)

/-- Embedding of `_applyWalEntry(entry)`: `MINT_SEEN` and
`POSITION_OPENED` overwrite the key, `POSITION_UPDATED` merges into an
existing entry (and is a no-op on a missing one), `POSITION_CLOSED`
deletes the key. -/
def applyWalEntry (s : WalState) (e : WalEntry) : WalState :=
  match e with
  | .mintSeen m d =>
    ⟨fun k => if k = m then some d else s.seenMints k, s.positions⟩
  | .positionOpened m p =>
    ⟨s.seenMints, fun k => if k = m then some p else s.positions k⟩
  | .positionUpdated m u =>
    ⟨s.seenMints, fun k =>
      if k = m then
        match s.positions m with
        | some pos => some (assignPayload pos u)
        | none => none
      else s.positions k⟩
  | .positionClosed m =>
    ⟨s.seenMints, fun k => if k = m then none else s.positions k⟩

/-- Replaying one WAL segment: apply its entries in order. -/
def applySegment (s : WalState) (seg : List WalEntry) : WalState :=
  seg.foldl applyWalEntry s

/-- Embedding of `_replayWal(walOffset)`: the WAL directory's segment
files are read in sorted filename order (`files.sort()`), and every
entry of every segment is applied. The `walOffset` argument that
`load()` passes from the snapshot is never read by the source function;
it is kept here to mirror the signature. -/
def replayWal (s : WalState) (segments : List (List WalEntry))
    (walOffset : ℕ) : WalState :=
  segments.foldl applySegment s

/-- Modelled from the spec: the recovery described in the specification,
which "skips every entry at an index below the snapshot's walOffset,
applying only entries written after the snapshot" while walking the
segments in lexical order. This skipping behaviour is absent from
`StateManager._replayWal` in the source. -/
def replayWalSkipping (s : WalState) (segments : List (List WalEntry))
    (walOffset : ℕ) : WalState :=
  ((segments.flatten).drop walOffset).foldl applyWalEntry s

/-- A one-field payload, for concrete WAL inputs. -/
def singletonPayload (k v : String) : Payload :=
  fun k2 => if k2 = k then some v else none

/-- The empty recovered state. -/
def emptyWalState : WalState := ⟨fun _ => none, fun _ => none⟩

/-- Claim C1 names behaviour the source lacks: `load()` passes the
snapshot's `walOffset` into `_replayWal`, but `_replayWal` never reads
its parameter and applies every entry of every segment. With
`walOffset = 1` and a single one-entry segment, the spec's recovery
(`replayWalSkipping`) skips the entry (index 0 < 1) and leaves the state
empty, while the source's recovery applies it and creates the
position. -/
theorem replayWal_ignores_walOffset :
    (replayWal emptyWalState
        [[.positionOpened "m" (singletonPayload "entryPrice" "1")]] 1).positions "m"
      = some (singletonPayload "entryPrice" "1")
    ∧ (replayWalSkipping emptyWalState
        [[.positionOpened "m" (singletonPayload "entryPrice" "1")]] 1).positions "m"
      = none :=
  ⟨rfl, rfl⟩

/-! ### WAL replay idempotence (C5) -/

/-- Per-key effect of a WAL entry on one of the maps: either reset the
key to a fixed value (set, overwrite or delete) or merge updates into an
existing value. -/
inductive KeyOp where
  | reset (v : Option Payload)
  | merge (u : Payload)

/-- Apply one per-key operation. -/
def stepKey (v : Option Payload) : KeyOp → Option Payload
  | .reset w => w
  | .merge u =>
    match v with
    | some o => some (assignPayload o u)
    | none => none

/-- Apply a list of per-key operations in order. -/
def runKey (v : Option Payload) (ops : List KeyOp) : Option Payload :=
  ops.foldl stepKey v

/-- The per-key operation a WAL entry performs on `positions` at `m`. -/
def posOp (m : String) : WalEntry → Option KeyOp
  | .mintSeen _ _ => none
  | .positionOpened m2 p => if m2 = m then some (.reset (some p)) else none
  | .positionUpdated m2 u => if m2 = m then some (.merge u) else none
  | .positionClosed m2 => if m2 = m then some (.reset none) else none

/-- All per-key operations a segment performs on `positions` at `m`. -/
def posOps (m : String) (seg : List WalEntry) : List KeyOp :=
  seg.filterMap (posOp m)

theorem applyWalEntry_positions (s : WalState) (e : WalEntry) (m : String) :
    (applyWalEntry s e).positions m =
      match posOp m e with
      | some op => stepKey (s.positions m) op
      | none => s.positions m := by
  cases e with
  | mintSeen m2 d => rfl
  | positionOpened m2 p =>
    by_cases h : m2 = m
    · subst h
      simp [applyWalEntry, posOp, stepKey]
    · have h2 : ¬ m = m2 := fun hh => h hh.symm
      simp [applyWalEntry, posOp, h, h2]
  | positionUpdated m2 u =>
    by_cases h : m2 = m
    · subst h
      simp [applyWalEntry, posOp, stepKey]
    · have h2 : ¬ m = m2 := fun hh => h hh.symm
      simp [applyWalEntry, posOp, h, h2]
  | positionClosed m2 =>
    by_cases h : m2 = m
    · subst h
      simp [applyWalEntry, posOp, stepKey]
    · have h2 : ¬ m = m2 := fun hh => h hh.symm
      simp [applyWalEntry, posOp, h, h2]

theorem applySegment_positions (seg : List WalEntry) (s : WalState) (m : String) :
    (applySegment s seg).positions m = runKey (s.positions m) (posOps m seg) := by
  induction seg generalizing s with
  | nil => rfl
  | cons e rest ih =>
    rw [show applySegment s (e :: rest) = applySegment (applyWalEntry s e) rest from rfl,
      ih, applyWalEntry_positions]
    cases hop : posOp m e with
    | some op => simp [posOps, List.filterMap_cons, hop, runKey]
    | none => simp [posOps, List.filterMap_cons, hop]

/-- Whether a per-key operation overwrites the key outright. -/
def isReset : KeyOp → Bool
  | .reset _ => true
  | .merge _ => false

theorem runKey_const_of_reset (ops : List KeyOp) (h : ops.any isReset = true)
    (v w : Option Payload) : runKey v ops = runKey w ops := by
  induction ops generalizing v w with
  | nil => exact absurd h (by simp)
  | cons op rest ih =>
    cases op with
    | reset x => rfl
    | merge u =>
      have hrest : rest.any isReset = true := by simpa [isReset] using h
      exact ih hrest _ _

/-- The merge payloads of a reset-free operation list. -/
def mergePayloads (ops : List KeyOp) : List Payload :=
  ops.filterMap fun op =>
    match op with
    | .merge u => some u
    | .reset _ => none

/-- Fold `Object.assign` merges over a base payload. -/
def mergeAll (o : Payload) (us : List Payload) : Payload :=
  us.foldl assignPayload o

theorem runKey_none_of_no_reset (ops : List KeyOp) (h : ops.any isReset = false) :
    runKey none ops = none := by
  induction ops with
  | nil => rfl
  | cons op rest ih =>
    cases op with
    | reset x => simp [isReset] at h
    | merge u =>
      have hrest : rest.any isReset = false := by simpa [isReset] using h
      exact ih hrest

theorem runKey_some_of_no_reset (ops : List KeyOp) (h : ops.any isReset = false)
    (o : Payload) : runKey (some o) ops = some (mergeAll o (mergePayloads ops)) := by
  induction ops generalizing o with
  | nil => rfl
  | cons op rest ih =>
    cases op with
    | reset x => simp [isReset] at h
    | merge u =>
      have hrest : rest.any isReset = false := by simpa [isReset] using h
      exact ih hrest (assignPayload o u)

/-- The value the last update mentioning `k` assigns, if any. -/
def lastVal (us : List Payload) (k : String) : Option String :=
  match us with
  | [] => none
  | u :: rest =>
    match lastVal rest k with
    | some x => some x
    | none => u k

theorem mergeAll_apply (us : List Payload) (o : Payload) (k : String) :
    mergeAll o us k =
      match lastVal us k with
      | some x => some x
      | none => o k := by
  induction us generalizing o with
  | nil => rfl
  | cons u rest ih =>
    rw [show mergeAll o (u :: rest) = mergeAll (assignPayload o u) rest from rfl, ih]
    rw [show lastVal (u :: rest) k =
      (match lastVal rest k with
        | some x => some x
        | none => u k) from rfl]
    cases hl : lastVal rest k with
    | some x => rfl
    | none =>
      show assignPayload o u k = _
      unfold assignPayload
      rfl

theorem mergeAll_idem (o : Payload) (us : List Payload) :
    mergeAll (mergeAll o us) us = mergeAll o us := by
  funext k
  simp only [mergeAll_apply]
  cases hl : lastVal us k with
  | some x => simp [hl]
  | none => simp [hl]

theorem runKey_idem (ops : List KeyOp) (v : Option Payload) :
    runKey (runKey v ops) ops = runKey v ops := by
  by_cases hr : ops.any isReset = true
  · exact runKey_const_of_reset ops hr _ _
  · have hr2 : ops.any isReset = false := by
      cases h2 : ops.any isReset with
      | false => rfl
      | true => exact absurd h2 hr
    cases v with
    | none => rw [runKey_none_of_no_reset ops hr2, runKey_none_of_no_reset ops hr2]
    | some o =>
      rw [runKey_some_of_no_reset ops hr2 o, runKey_some_of_no_reset ops hr2 _,
        mergeAll_idem]

/-- Claim C5: WAL replay is idempotent on the position set — applying a
segment twice, from any starting state (in particular one loaded from a
snapshot), leaves every key of the `positions` map exactly as applying
it once does. Each entry type's apply is set/overwrite/delete or an
`Object.assign` merge, and repeating the same sequence rewrites each key
to the same final value. -/
theorem applySegment_twice_positions (s : WalState) (seg : List WalEntry)
    (m : String) :
    (applySegment (applySegment s seg) seg).positions m
      = (applySegment s seg).positions m := by
  rw [applySegment_positions seg (applySegment s seg) m,
    applySegment_positions seg s m]
  exact runKey_idem (posOps m seg) (s.positions m)

/-! ### Snapshot retention (C6)

`takeSnapshot` names each snapshot file `snapshot_<uuid>.json` with
`crypto.randomUUID()` and, after the atomic rename, calls
`_cleanupOldSnapshots`, which — despite its comment "Sort by
modification time" — never sorts by mtime (the `fs.stat` promise is
never awaited): it deletes all but the last 5 entries of the directory
listing. A filename is modelled as a number whose numeric order stands
for the directory-listing order of the names; the input list order is
creation order, which the random UUID names do not reflect. -/

/-- Embedding of `_cleanupOldSnapshots()`: with more than 5 snapshot
files present, delete all but the 5 greatest in listing order. The
result keeps the surviving files in creation order. -/
def snapCleanup (files : List ℕ) : List ℕ :=
  if 5 < files.length then
    let listing := files.insertionSort (· ≤ ·)
    let toDelete := listing.take (files.length - 5)
    files.filter (fun f => f ∉ toDelete)
  else files

/-- Embedding of one `takeSnapshot()` cycle's effect on the snapshot
directory: write the new file, then clean up. -/
def takeSnapshotCycle (files : List ℕ) (newName : ℕ) : List ℕ :=
  snapCleanup (files ++ [newName])

/-- Successive `takeSnapshot` cycles from an empty directory, given the
freshly drawn file names in creation order. -/
def runSnapshotCycles (names : List ℕ) : List ℕ :=
  names.foldl takeSnapshotCycle []

theorem snapCleanup_sublist (files : List ℕ) :
    List.Sublist (snapCleanup files) files := by
  unfold snapCleanup
  split
  · exact List.filter_sublist files
  · exact List.Sublist.refl files

theorem snapCleanup_length (files : List ℕ) (h : files.Nodup) :
    (snapCleanup files).length = min files.length 5 := by
  unfold snapCleanup
  by_cases h5 : 5 < files.length
  · rw [if_pos h5]
    have hperm : List.Perm (files.insertionSort (· ≤ ·)) files :=
      List.perm_insertionSort _ files
    set sorted := files.insertionSort (· ≤ ·) with hs
    set toDelete := sorted.take (files.length - 5) with ht
    have hnodup : sorted.Nodup := hperm.nodup_iff.mpr h
    have hsplit : toDelete ++ sorted.drop (files.length - 5) = sorted :=
      List.take_append_drop _ sorted
    have hfil : List.Perm (files.filter (fun f => f ∉ toDelete))
        (sorted.filter (fun f => f ∉ toDelete)) :=
      (hperm.filter _).symm
    have hdisj : ∀ x ∈ sorted.drop (files.length - 5), x ∉ toDelete := by
      intro x hxd hxt
      rw [← hsplit] at hnodup
      exact (List.disjoint_of_nodup_append hnodup) hxt hxd
    have hfil2 : sorted.filter (fun f => f ∉ toDelete)
        = toDelete.filter (fun f => f ∉ toDelete)
          ++ (sorted.drop (files.length - 5)).filter (fun f => f ∉ toDelete) := by
      rw [← List.filter_append, hsplit]
    have hleft : toDelete.filter (fun f => f ∉ toDelete) = [] := by
      rw [List.filter_eq_nil_iff]
      intro a ha
      simp [ha]
    have hright : (sorted.drop (files.length - 5)).filter (fun f => f ∉ toDelete)
        = sorted.drop (files.length - 5) := by
      rw [List.filter_eq_self]
      intro a ha
      simpa using hdisj a ha
    have hlen : (files.filter (fun f => f ∉ toDelete)).length
        = (sorted.drop (files.length - 5)).length := by
      rw [hfil.length_eq, hfil2, hleft, hright, List.nil_append]
    rw [hlen, List.length_drop, hperm.length_eq]
    omega
  · rw [if_neg h5]
    omega

/-- One cycle takes a nodup directory of at most 5 files to a nodup
directory of `min (n+1) 5` files. -/
theorem takeSnapshotCycle_length (files : List ℕ) (n : ℕ)
    (h : (files ++ [n]).Nodup) :
    (takeSnapshotCycle files n).length = min (files.length + 1) 5 := by
  unfold takeSnapshotCycle
  rw [snapCleanup_length _ h, List.length_append]
  norm_num

theorem runSnapshotCycles_aux (names : List ℕ) (s : List ℕ)
    (h : (s ++ names).Nodup) (hs : s.length ≤ 5) :
    (names.foldl takeSnapshotCycle s).length = min (s.length + names.length) 5 := by
  induction names generalizing s with
  | nil =>
    simp only [List.foldl_nil, List.length_nil, Nat.add_zero]
    omega
  | cons n rest ih =>
    have hsn : (s ++ [n]).Nodup := by
      rw [List.nodup_append] at h ⊢
      exact ⟨h.1, List.nodup_singleton n, fun x hx hxn => by
        rw [List.mem_singleton] at hxn
        exact (h.2.2 hx) (hxn ▸ List.mem_cons_self n rest)⟩
    have hcyc : (takeSnapshotCycle s n).length = min (s.length + 1) 5 :=
      takeSnapshotCycle_length s n hsn
    have hsub : List.Sublist (takeSnapshotCycle s n) (s ++ [n]) :=
      snapCleanup_sublist _
    have hnext : ((takeSnapshotCycle s n) ++ rest).Nodup := by
      rw [List.nodup_append] at h ⊢
      refine ⟨List.Nodup.sublist hsub hsn, (h.2.1).of_cons, fun x hx hxr => ?_⟩
      have hx2 : x ∈ s ++ [n] := hsub.subset hx
      rcases List.mem_append.mp hx2 with hxs | hxn
      · exact (h.2.2 hxs) (List.mem_cons_of_mem n hxr)
      · rw [List.mem_singleton] at hxn
        subst hxn
        exact (List.nodup_cons.mp h.2.1).1 hxr
    have := ih (takeSnapshotCycle s n) hnext (by omega)
    rw [List.foldl_cons, this, hcyc]
    simp only [List.length_cons]
    omega

/-- Claim C6, amended: after 7 takeSnapshot cycles with distinct
(random-UUID) names, exactly 5 snapshot files remain — but they are the
last 5 in directory-listing order of the names, not necessarily the 5
most recent by creation order. -/
theorem seven_cycles_leave_five (names : List ℕ) (h : names.Nodup)
    (h7 : names.length = 7) :
    (runSnapshotCycles names).length = 5 := by
  unfold runSnapshotCycles
  rw [runSnapshotCycles_aux names [] (by simpa using h) (by simp)]
  omega

/-- Witness for the amended C6 at a concrete name sequence. -/
theorem seven_cycles_leave_five_witness :
    (runSnapshotCycles [5, 6, 7, 8, 9, 10, 1]).length = 5 :=
  seven_cycles_leave_five [5, 6, 7, 8, 9, 10, 1] (by decide) (by decide)

/-- Claim C6 as stated is false: when the 7th snapshot's random name
sorts before every older name in the directory listing, the cleanup
deletes the newest file. With creation order 5, 6, 7, 8, 9, 10, 1, the
survivors are files 6–10, while the 5 most recent by creation order are
7, 8, 9, 10 and 1: the newest snapshot (name 1) is gone. -/
theorem seven_cycles_delete_newest :
    runSnapshotCycles [5, 6, 7, 8, 9, 10, 1] = [6, 7, 8, 9, 10]
    ∧ (1 : ℕ) ∈ ([5, 6, 7, 8, 9, 10, 1] : List ℕ).drop 2
    ∧ (1 : ℕ) ∉ runSnapshotCycles [5, 6, 7, 8, 9, 10, 1] := by
  decide

/-! ### Validation queue dedupe discipline (C2)

`ValidationQueue.push` drops an id found in the `validatedMints` TTL
cache; otherwise the job is queued, drained, and `_processJob` writes
the cache and produces the terminal ENTER/PASS outcome only after the
pipeline finishes. The interleaving semantics below has two events:
accepting a push and completing a job; `inflight` covers queued and
running jobs (every accepted job is eventually processed by `_drain`
regardless of worker count). -/

/-- Queue state: accepted-but-unfinished ids, the `validatedMints`
cache, and the terminal outcomes recorded so far (one entry per
completed job, ENTER or PASS). -/
structure QueueState where
  inflight : List String
  cache : List String
  outcomes : List String
deriving DecidableEq, Repr

/-- One event of a pipeline run. -/
inductive QueueEv where
  | push (id : String)
  | complete (id : String)
deriving DecidableEq, Repr

/-- The id an event concerns. -/
def eventId : QueueEv → String
  | .push id => id
  | .complete id => id

/-- Embedding of the state change of `push()` (cache check, then
enqueue) and of a `_processJob` completion (erase from in-flight, write
`validatedMints`, record the ENTER/PASS outcome). -/
def queueStep (s : QueueState) : QueueEv → QueueState
  | .push id =>
    if id ∈ s.cache then s
    else ⟨id :: s.inflight, s.cache, s.outcomes⟩
  | .complete id =>
    if id ∈ s.inflight then
      ⟨s.inflight.erase id, id :: s.cache, id :: s.outcomes⟩
    else s

/-- The empty queue. -/
def initQueue : QueueState := ⟨[], [], []⟩

/-- Run a whole event trace. -/
def runQueue (t : List QueueEv) : QueueState :=
  t.foldl queueStep initQueue

/-- Check along a run from `s` that `m` is never pushed while a
validation of `m` is in flight (the race window the spec calls out:
the cache is written only after completion). -/
def serialFrom (m : String) (s : QueueState) : List QueueEv → Bool
  | [] => true
  | e :: rest =>
    match e with
    | .push id =>
      if id = m ∧ m ∈ s.inflight then false
      else serialFrom m (queueStep s e) rest
    | .complete _ => serialFrom m (queueStep s (e : QueueEv)) rest

/-- No duplicate push of `m` lands while `m` is being validated. -/
def serialized (m : String) (t : List QueueEv) : Bool :=
  serialFrom m initQueue t

/-- `m` has not been accepted yet. -/
def notYet (m : String) (s : QueueState) : Prop :=
  m ∉ s.cache ∧ s.inflight.count m = 0 ∧ s.outcomes.count m = 0

/-- Exactly one validation of `m` is pending and none has finished. -/
def inFlightOnce (m : String) (s : QueueState) : Prop :=
  m ∉ s.cache ∧ s.inflight.count m = 1 ∧ s.outcomes.count m = 0

/-- Exactly one validation of `m` finished; `m` is cached. -/
def doneOnce (m : String) (s : QueueState) : Prop :=
  m ∈ s.cache ∧ s.inflight.count m = 0 ∧ s.outcomes.count m = 1

theorem queueStep_ne_view (m : String) (s : QueueState) (e : QueueEv)
    (hne : eventId e ≠ m) :
    (m ∈ (queueStep s e).cache ↔ m ∈ s.cache)
    ∧ (queueStep s e).inflight.count m = s.inflight.count m
    ∧ (queueStep s e).outcomes.count m = s.outcomes.count m := by
  cases e with
  | push j =>
    simp only [eventId] at hne
    simp only [queueStep]
    by_cases hc : j ∈ s.cache
    · rw [if_pos hc]
      exact ⟨Iff.rfl, rfl, rfl⟩
    · rw [if_neg hc]
      exact ⟨Iff.rfl, List.count_cons_of_ne (fun h => hne h.symm) s.inflight, rfl⟩
  | complete j =>
    simp only [eventId] at hne
    simp only [queueStep]
    by_cases hc : j ∈ s.inflight
    · rw [if_pos hc]
      refine ⟨?_, ?_, ?_⟩
      · simp only [List.mem_cons]
        constructor
        · intro h
          rcases h with h | h
          · exact absurd h.symm hne
          · exact h
        · exact Or.inr
      · exact List.count_erase_of_ne (fun h => hne h.symm) s.inflight
      · exact List.count_cons_of_ne (fun h => hne h.symm) s.outcomes
    · rw [if_neg hc]
      exact ⟨Iff.rfl, rfl, rfl⟩

theorem serialFrom_runs_once (m : String) :
    ∀ (t : List QueueEv) (s : QueueState),
      serialFrom m s t = true →
      inFlightOnce m s ∨ doneOnce m s →
      inFlightOnce m (t.foldl queueStep s) ∨ doneOnce m (t.foldl queueStep s) := by
  intro t
  induction t with
  | nil => exact fun s _ h => h
  | cons e rest ih =>
    intro s hser hinv
    rw [List.foldl_cons]
    by_cases hj : eventId e = m
    · cases e with
      | push j =>
        simp only [eventId] at hj
        subst j
        rcases hinv with h1 | h2
        · have hmem : m ∈ s.inflight :=
            List.count_pos_iff.mp (by rw [h1.2.1]; norm_num)
          rw [serialFrom, if_pos ⟨rfl, hmem⟩] at hser
          exact absurd hser (by simp)
        · have hnotin : m ∉ s.inflight := List.count_eq_zero.mp h2.2.1
          have hstep : queueStep s (.push m) = s := by
            simp only [queueStep]
            rw [if_pos h2.1]
          rw [serialFrom, if_neg (fun hc => hnotin hc.2)] at hser
          rw [hstep]
          rw [hstep] at hser
          exact ih s hser (Or.inr h2)
      | complete j =>
        simp only [eventId] at hj
        subst j
        rw [serialFrom] at hser
        rcases hinv with h1 | h2
        · have hmem : m ∈ s.inflight :=
            List.count_pos_iff.mp (by rw [h1.2.1]; norm_num)
          have hstep : queueStep s (.complete m)
              = ⟨s.inflight.erase m, m :: s.cache, m :: s.outcomes⟩ := by
            simp only [queueStep]
            rw [if_pos hmem]
          rw [hstep] at hser ⊢
          refine ih _ hser (Or.inr ⟨List.mem_cons_self m _, ?_, ?_⟩)
          · show (s.inflight.erase m).count m = 0
            rw [List.count_erase_self, h1.2.1]
          · show (m :: s.outcomes).count m = 1
            rw [List.count_cons_self, h1.2.2]
        · have hnotin : m ∉ s.inflight := List.count_eq_zero.mp h2.2.1
          have hstep : queueStep s (.complete m) = s := by
            simp only [queueStep]
            rw [if_neg hnotin]
          rw [hstep] at hser ⊢
          exact ih s hser (Or.inr h2)
    · have hview := queueStep_ne_view m s e hj
      have hser2 : serialFrom m (queueStep s e) rest = true := by
        cases e with
        | push j =>
          simp only [eventId] at hj
          rw [serialFrom, if_neg (fun hc => hj hc.1)] at hser
          exact hser
        | complete j =>
          rw [serialFrom] at hser
          exact hser
      refine ih (queueStep s e) hser2 ?_
      rcases hinv with h1 | h2
      · exact Or.inl ⟨fun hc => h1.1 (hview.1.mp hc),
          hview.2.1.trans h1.2.1, hview.2.2.trans h1.2.2⟩
      · exact Or.inr ⟨hview.1.mpr h2.1,
          hview.2.1.trans h2.2.1, hview.2.2.trans h2.2.2⟩

theorem serialFrom_from_notYet (m : String) :
    ∀ (t : List QueueEv) (s : QueueState),
      serialFrom m s t = true →
      notYet m s →
      (notYet m (t.foldl queueStep s) ∧ QueueEv.push m ∉ t)
      ∨ inFlightOnce m (t.foldl queueStep s)
      ∨ doneOnce m (t.foldl queueStep s) := by
  intro t
  induction t with
  | nil => exact fun s _ h => Or.inl ⟨h, by simp⟩
  | cons e rest ih =>
    intro s hser h0
    rw [List.foldl_cons]
    by_cases hj : eventId e = m
    · cases e with
      | push j =>
        simp only [eventId] at hj
        subst j
        have hnotin : m ∉ s.inflight := List.count_eq_zero.mp h0.2.1
        have hstep : queueStep s (.push m)
            = ⟨m :: s.inflight, s.cache, s.outcomes⟩ := by
          simp only [queueStep]
          rw [if_neg h0.1]
        rw [serialFrom, if_neg (fun hc => hnotin hc.2)] at hser
        rw [hstep] at hser ⊢
        have h1 : inFlightOnce m ⟨m :: s.inflight, s.cache, s.outcomes⟩ := by
          refine ⟨h0.1, ?_, h0.2.2⟩
          show (m :: s.inflight).count m = 1
          rw [List.count_cons_self, h0.2.1]
        exact Or.inr (serialFrom_runs_once m rest _ hser (Or.inl h1))
      | complete j =>
        simp only [eventId] at hj
        subst j
        have hnotin : m ∉ s.inflight := List.count_eq_zero.mp h0.2.1
        have hstep : queueStep s (.complete m) = s := by
          simp only [queueStep]
          rw [if_neg hnotin]
        rw [serialFrom] at hser
        rw [hstep] at hser ⊢
        rcases ih s hser h0 with ⟨ha, hb⟩ | h | h
        · refine Or.inl ⟨ha, fun hmem => ?_⟩
          rcases List.mem_cons.mp hmem with hx | hx
          · exact QueueEv.noConfusion hx
          · exact hb hx
        · exact Or.inr (Or.inl h)
        · exact Or.inr (Or.inr h)
    · have hview := queueStep_ne_view m s e hj
      have hser2 : serialFrom m (queueStep s e) rest = true := by
        cases e with
        | push j =>
          simp only [eventId] at hj
          rw [serialFrom, if_neg (fun hc => hj hc.1)] at hser
          exact hser
        | complete j =>
          rw [serialFrom] at hser
          exact hser
      have h02 : notYet m (queueStep s e) :=
        ⟨fun hc => h0.1 (hview.1.mp hc), hview.2.1.trans h0.2.1,
          hview.2.2.trans h0.2.2⟩
      rcases ih (queueStep s e) hser2 h02 with ⟨ha, hb⟩ | h | h
      · refine Or.inl ⟨ha, fun hmem => ?_⟩
        rcases List.mem_cons.mp hmem with hx | hx
        · have heq : eventId e = m := by rw [← hx]; rfl
          exact hj heq
        · exact hb hx
      · exact Or.inr (Or.inl h)
      · exact Or.inr (Or.inr h)

/-- Claim C2, amended: a drained run produces exactly one terminal
outcome (ENTER or PASS) for an enqueued id provided the id is never
pushed again while a validation of it is in flight — re-enqueues after
completion are dropped by the `validatedMints` cache. Without that
proviso the guarantee fails (see the duplicate-push counterexample):
the cache is written only after completion, the race the spec notes. -/
theorem queue_one_outcome_of_serialized (t : List QueueEv) (m : String)
    (hser : serialized m t = true)
    (hpush : QueueEv.push m ∈ t)
    (hdrained : (runQueue t).inflight = []) :
    (runQueue t).outcomes.count m = 1 := by
  have h0 : notYet m initQueue := ⟨by simp [initQueue], rfl, rfl⟩
  unfold runQueue at hdrained ⊢
  rcases serialFrom_from_notYet m t initQueue hser h0 with ⟨ha, hb⟩ | h | h
  · exact absurd hpush hb
  · exfalso
    have hc := h.2.1
    rw [hdrained] at hc
    simp at hc
  · exact h.2.2

/-- Witness for the amended C2: push, complete, then a duplicate push
of the same id after completion; exactly one outcome is recorded. -/
theorem queue_one_outcome_witness :
    (runQueue [.push "a", .complete "a", .push "a"]).outcomes.count "a" = 1 :=
  queue_one_outcome_of_serialized [.push "a", .complete "a", .push "a"] "a"
    (by decide) (by decide) (by decide)

/-- Claim C2 as stated is false: two concurrent pushes of the same id
inside the dedupe window, both accepted before either job completes,
produce two terminal outcomes for that id in a fully drained run. -/
theorem queue_duplicate_pushes_two_outcomes :
    QueueEv.push "a"
        ∈ ([.push "a", .push "a", .complete "a", .complete "a"] : List QueueEv)
    ∧ (runQueue [.push "a", .push "a", .complete "a", .complete "a"]).inflight = []
    ∧ (runQueue [.push "a", .push "a", .complete "a", .complete "a"]).outcomes.count "a"
        = 2 := by
  decide

end MomentumSniper
